import Mathlib

/-
Verification development for the ad-hoc 3D bin-packing solver
(src/ad-hoc/solver.py).  The Python source is shallowly embedded:
Python ints become Int, Python float arithmetic on exact integer data is
rendered as exact rational arithmetic (Rat), mutating methods become
state-passing functions, and Python stable sorts become insertionSort
(which is stable).  Sets of integer tuples that Python materialises with
list(set(..)) and then sorts by a total key are rendered as dedup
followed by a stable sort, which yields the same sorted list of distinct
values.  The unsorted orientation list list(set(..)) has an unspecified
iteration order in Python; we fix the List.dedup order, and every
concrete evaluation below only involves items for which at most one
orientation fits the vehicle, so that the chosen order is irrelevant.
-/

set_option maxHeartbeats 1600000

namespace BinPack

/-- Sorting heuristic selector (solver.py, class SortingHeuristic). -/
inductive SortingHeuristic where
  | volume
  | longest_side
  | area
  | height
deriving Repr, DecidableEq

/-- Parcel record with precomputed orientation list (solver.py, class Item). -/
structure Item where
  id : Int
  length : Int
  width : Int
  height : Int
  delivery_time : Int
  orientations : List (Int × Int × Int)
deriving Repr, DecidableEq

/-- Vehicle shape (solver.py, class Vehicle). -/
structure Vehicle where
  length : Int
  width : Int
  height : Int
deriving Repr, DecidableEq

/-- Placement of one parcel inside one vehicle (solver.py, class Placement). -/
structure Placement where
  vehicle_id : Int
  item_id : Int
  x : Int
  y : Int
  z : Int
  length : Int
  width : Int
  height : Int
deriving Repr, DecidableEq

/-- The six dimension permutations generated by Item.__post_init__. -/
def allOrientations (l w h : Int) : List (Int × Int × Int) :=
  [(l, w, h), (l, h, w), (w, l, h), (w, h, l), (h, l, w), (h, w, l)]

/-- Item constructor mirroring Item.__post_init__ with orientations=None:
the six permutations with duplicates removed (Python list(set(..))). -/
def mkItem (id l w h d : Int) : Item :=
  ⟨id, l, w, h, d, (allOrientations l w h).dedup⟩

/-- Volume of a parcel, from its original dimensions (Item.volume). -/
def Item.volume (it : Item) : Int := it.length * it.width * it.height

/-- Base area of a parcel (Item.base_area). -/
def Item.base_area (it : Item) : Int := it.length * it.width

/-- Longest side of a parcel (Item.longest_side). -/
def Item.longest_side (it : Item) : Int := max it.length (max it.width it.height)

/-- Volume of a vehicle (Vehicle.volume). -/
def Vehicle.volume (v : Vehicle) : Int := v.length * v.width * v.height

/-- Orientations of an item that fit the vehicle (Item.filter_orientations). -/
def Item.filter_orientations (it : Item) (v : Vehicle) : List (Int × Int × Int) :=
  it.orientations.filter (fun o =>
    decide (o.1 ≤ v.length) && decide (o.2.1 ≤ v.width) && decide (o.2.2 ≤ v.height))

/-- Box overlap test (Placement.overlaps_with). -/
def Placement.overlaps_with (p q : Placement) : Bool :=
  !(decide (p.x + p.length ≤ q.x) || decide (q.x + q.length ≤ p.x) ||
    decide (p.y + p.width ≤ q.y) || decide (q.y + q.width ≤ p.y) ||
    decide (p.z + p.height ≤ q.z) || decide (q.z + q.height ≤ p.z))

/-- State of one vehicle being packed (solver.py, class VehiclePacker). -/
structure VehiclePacker where
  vehicle : Vehicle
  vehicle_id : Int
  placements : List Placement
  occupied_volume : Int
  delivery_zone : Option (Int × Int)
deriving Repr, DecidableEq

/-- Freshly constructed packer (VehiclePacker.__init__ with default zone). -/
def VehiclePacker.init (v : Vehicle) (vid : Int) : VehiclePacker :=
  ⟨v, vid, [], 0, none⟩

/-- Utilization ratio (VehiclePacker.utilization_rate); the Python float
division of two ints is rendered as the exact rational value. -/
def VehiclePacker.utilization_rate (vp : VehiclePacker) : ℚ :=
  if 0 < vp.vehicle.volume then Rat.divInt vp.occupied_volume vp.vehicle.volume else 0

/-- Lexicographic order on integer triples, first component most significant. -/
def keyLe (p q : Int × Int × Int) : Prop :=
  p.1 < q.1 ∨ (p.1 = q.1 ∧ (p.2.1 < q.2.1 ∨ (p.2.1 = q.2.1 ∧ p.2.2 ≤ q.2.2)))

instance : DecidableRel keyLe := fun p q => by unfold keyLe; infer_instance

/-- Candidate-position order used by find_placement_position: sort anchors
by the key (z, y, x) ascending. -/
def posLe (p q : Int × Int × Int) : Prop :=
  keyLe (p.2.2, p.2.1, p.1) (q.2.2, q.2.1, q.1)

instance : DecidableRel posLe := fun p q => by unfold posLe; infer_instance

/-- Corner anchors contributed by the existing placements
(find_placement_position, candidate generation loop). -/
def candidateCorners (ps : List Placement) : List (Int × Int × Int) :=
  ps.foldr (fun p acc =>
    (p.x + p.length, p.y, p.z) :: (p.x, p.y + p.width, p.z) ::
    (p.x, p.y, p.z + p.height) :: acc) []

/-- Distinct candidate anchors: origin plus the exposed corners. -/
def VehiclePacker.candidate_positions (vp : VehiclePacker) : List (Int × Int × Int) :=
  ((0, 0, 0) :: candidateCorners vp.placements).dedup

/-- Zone check on the anchor x coordinate (skip when x < x_min). -/
def zoneOkLow (x_min : Option Int) (x : Int) : Bool :=
  match x_min with
  | some m => decide (m ≤ x)
  | none => true

/-- Anchor filter check on the upper zone bound (skip when x_max ≤ x). -/
def zoneOkStrict (x_max : Option Int) (x : Int) : Bool :=
  match x_max with
  | some m => decide (x < m)
  | none => true

/-- Zone check on the placed box (skip when x + l > x_max). -/
def zoneOkHigh (x_max : Option Int) (x l : Int) : Bool :=
  match x_max with
  | some m => decide (x + l ≤ m)
  | none => true

/-- Filtered and sorted candidate anchors (find_placement_position). -/
def VehiclePacker.candidate_list (vp : VehiclePacker) (x_min x_max : Option Int) :
    List (Int × Int × Int) :=
  (vp.candidate_positions.filter (fun c =>
      zoneOkLow x_min c.1 && zoneOkStrict x_max c.1 &&
      decide (c.1 < vp.vehicle.length) && decide (c.2.1 < vp.vehicle.width) &&
      decide (c.2.2 < vp.vehicle.height))).insertionSort posLe

/-- Placement search (VehiclePacker.find_placement_position): iterate the
fitting orientations, and for each of them the sorted anchors, returning
the first combination that honours the zone bounds, stays inside the
vehicle and overlaps no existing placement. -/
def VehiclePacker.find_placement_position (vp : VehiclePacker) (it : Item)
    (x_min x_max : Option Int) : Option (Int × Int × Int × Int × Int × Int) :=
  let orientations := it.filter_orientations vp.vehicle
  if orientations.isEmpty then none
  else
    let cands := vp.candidate_list x_min x_max
    orientations.findSome? (fun o =>
      cands.findSome? (fun c =>
        if !(zoneOkLow x_min c.1) then none
        else if !(zoneOkHigh x_max c.1 o.1) then none
        else if decide (vp.vehicle.length < c.1 + o.1) ||
                decide (vp.vehicle.width < c.2.1 + o.2.1) ||
                decide (vp.vehicle.height < c.2.2 + o.2.2) then none
        else if vp.placements.any (fun p =>
            (Placement.mk vp.vehicle_id it.id c.1 c.2.1 c.2.2 o.1 o.2.1 o.2.2).overlaps_with p)
          then none
        else some (c.1, c.2.1, c.2.2, o.1, o.2.1, o.2.2)))

/-- Committing insertion (VehiclePacker.add_item): on success the found
placement is appended and the occupied volume grows by the item volume. -/
def VehiclePacker.add_item (vp : VehiclePacker) (it : Item) (x_min x_max : Option Int) :
    Bool × VehiclePacker :=
  match vp.find_placement_position it x_min x_max with
  | none => (false, vp)
  | some (x, y, z, l, w, h) =>
      (true, { vp with
        placements := vp.placements ++ [Placement.mk vp.vehicle_id it.id x y z l w h],
        occupied_volume := vp.occupied_volume + it.volume })

/-- Non-mutating scoring probe (VehiclePacker.try_add_item_with_score);
the returned packer component is the unchanged receiver, mirroring that
the Python method never writes to self. -/
def VehiclePacker.try_add_item_with_score (vp : VehiclePacker) (it : Item)
    (x_min x_max : Option Int) : Option ℚ × VehiclePacker :=
  match vp.find_placement_position it x_min x_max with
  | none => (none, vp)
  | some _ =>
      (some (if 0 < vp.vehicle.volume
        then Rat.divInt (vp.occupied_volume + it.volume) vp.vehicle.volume else 0), vp)

/-- Removal helper: take out the first placement with the given item id,
returning it together with the remaining list. -/
def removeFirstById (iid : Int) : List Placement → Option (Placement × List Placement)
  | [] => none
  | p :: rest =>
      if p.item_id = iid then some (p, rest)
      else
        match removeFirstById iid rest with
        | none => none
        | some (q, rest2) => some (q, p :: rest2)

/-- Removal of a parcel (VehiclePacker.remove_item): drops the first
placement carrying the id and subtracts its box volume. -/
def VehiclePacker.remove_item (vp : VehiclePacker) (iid : Int) : Bool × VehiclePacker :=
  match removeFirstById iid vp.placements with
  | none => (false, vp)
  | some (p, rest) =>
      (true, { vp with
        placements := rest,
        occupied_volume := vp.occupied_volume - p.length * p.width * p.height })

/-- Sorted list of the distinct non-negative delivery times
(_compute_delivery_groups, constrained_times). -/
def constrainedTimes (items : List Item) : List Int :=
  ((((items.map (fun it => it.delivery_time)).filter (fun d => decide (0 ≤ d))).dedup)).insertionSort (fun a b => a ≤ b)

/-- Parcels sharing a delivery time, in input order (delivery_groups). -/
def deliveryGroup (items : List Item) (d : Int) : List Item :=
  items.filter (fun it => it.delivery_time == d)

/-- Total parcel volume of one delivery group. -/
def groupVolume (items : List Item) (d : Int) : Int :=
  ((deliveryGroup items d).map Item.volume).sum

/-- Total volume of all constrained groups (total_constrained_volume). -/
def totalConstrainedVolume (items : List Item) : Int :=
  ((constrainedTimes items).map (groupVolume items)).sum

/-- Number of parcels carrying a delivery constraint. -/
def nbConstrainedItems (items : List Item) : Int :=
  ((constrainedTimes items).map (fun d => ((deliveryGroup items d).length : Int))).sum

/-- Largest single dimension over the parcels of one group
(max_item_dimension in the proportional strategy). -/
def groupMaxDim (items : List Item) (d : Int) : Int :=
  match deliveryGroup items d with
  | [] => 0
  | it :: rest => rest.foldl (fun m jt => max m jt.longest_side) it.longest_side

/-- Cumulative zone strategy: every group gets x_min = 0 and an x_max that
shrinks with the ordinal position.  The Python float expression
int(L * (0.4 + 0.6 * (1 - i / m))) with m = max(k - 1, 1) is rendered as
the exact rational floor of L * (5m - 3i) / (5m). -/
def cumulativeZones (L : Int) (times : List Int) : List (Int × (Int × Int)) :=
  let k : Int := times.length
  let m : Int := max (k - 1) 1
  times.enum.map (fun p =>
    (p.2, (0, Rat.floor (Rat.divInt (L * (5 * m - 3 * (p.1 : Int))) (5 * m)))))

/-- Proportional zone strategy: traverse the constrained times latest
first with a cursor from 0; the Python float expression
int((volumes[d] / total) * L * 0.85) is rendered as the exact rational
floor of (volumes[d] * L * 17) / (total * 20). -/
def proportionalZones (items : List Item) (L : Int) : List (Int × (Int × Int)) :=
  let times := constrainedTimes items
  let total := totalConstrainedVolume items
  let k : Int := times.length
  (times.reverse.foldl (fun (st : Int × List (Int × (Int × Int))) d =>
    let current_x := st.1
    let zl0 : Int :=
      if 0 < total then
        max (Rat.floor (Rat.divInt (groupVolume items d * L * 17) (total * 20)))
            (groupMaxDim items d * 3)
      else L.fdiv k
    let zl : Int := min zl0 (L - current_x)
    let x_max : Int := min (current_x + zl) L
    (x_max, st.2 ++ [(d, (current_x, x_max))])) (0, ([] : List (Int × (Int × Int))))).2

/-- Modelled from the wording of the proportional-strategy description:
traverse the sorted constrained delivery times in reverse with a cursor
starting at 0; each group gets length
max(floor((V_c / V) * L * 0.85), 3 * maxdim) clipped to L - cursor, the
interval [cursor, cursor + len], and the cursor advances by len. -/
def specPropFold (items : List Item) (L : Int) : List (Int × (Int × Int)) :=
  ((constrainedTimes items).reverse.foldl
    (fun (st : Int × List (Int × (Int × Int))) d =>
      let len : Int := min
        (max (Rat.floor ((groupVolume items d : ℚ) /
            (totalConstrainedVolume items : ℚ) * (L : ℚ) * (17 / 20)))
          (3 * groupMaxDim items d))
        (L - st.1)
      (st.1 + len, st.2 ++ [(d, (st.1, st.1 + len))])) (0, [])).2

/-- Delivery-zone map (_compute_delivery_groups): empty when zones are
disabled or no constrained time exists; otherwise one strategy is chosen
from the group count and average group size, and the unconstrained time
-1 is mapped to the full length when it occurs. -/
def computeDeliveryZones (use : Bool) (v : Vehicle) (items : List Item) :
    List (Int × (Int × Int)) :=
  if !use then []
  else
    let times := constrainedTimes items
    if times.isEmpty then []
    else
      let k : Int := times.length
      let n : Int := nbConstrainedItems items
      let base :=
        if decide (20 < k) || (decide (10 < k) && decide (Rat.divInt n k < 3)) then
          cumulativeZones v.length times
        else proportionalZones items v.length
      if items.any (fun it => it.delivery_time == -1) then
        base ++ [(-1, (0, v.length))]
      else base

/-- Zone lookup for one parcel (_get_zone_for_item). -/
def getZoneForItem (use : Bool) (zones : List (Int × (Int × Int))) (it : Item) :
    Option (Int × Int) :=
  if !use then none else List.lookup it.delivery_time zones

/-- Secondary sort key (sort_items, secondary_key), negated for the
descending heuristics. -/
def secondaryKey (h : SortingHeuristic) (it : Item) : Int :=
  match h with
  | .volume => -it.volume
  | .longest_side => -it.longest_side
  | .area => -it.base_area
  | .height => -it.height

/-- Full sort key (sort_items, sort_key): constrained parcels first by
ascending delivery time, then the heuristic key. -/
def sortKey (h : SortingHeuristic) (it : Item) : Int × Int × Int :=
  if 0 ≤ it.delivery_time then (0, it.delivery_time, secondaryKey h it)
  else (1, 0, secondaryKey h it)

/-- Item comparison induced by the sort key. -/
def itemLe (h : SortingHeuristic) (a b : Item) : Prop :=
  keyLe (sortKey h a) (sortKey h b)

instance (h : SortingHeuristic) : DecidableRel (itemLe h) := fun a b => by
  unfold itemLe; infer_instance

/-- Stable sort of the parcels (BinPackingSolver.sort_items). -/
def sort_items (h : SortingHeuristic) (items : List Item) : List Item :=
  items.insertionSort (itemLe h)

/-- Best-fit selection (the scoring loops in solve and in
_try_close_one_vehicle): the index of the packer with the strictly
highest score, ties to the earliest packer, optionally skipping one
index; best_score starts at -1. -/
def bestVehicleIdx (vs : List VehiclePacker) (it : Item) (x_min x_max : Option Int)
    (skip : Option Nat) : Option Nat :=
  (vs.enum.foldl (fun (acc : Option Nat × ℚ) p =>
      if skip == some p.1 then acc
      else
        match (p.2.try_add_item_with_score it x_min x_max).1 with
        | none => acc
        | some s => if acc.2 < s then (some p.1, s) else acc)
    (none, Rat.divInt (-1) 1)).1

/-- In-place update of the packer at one index by add_item, returning the
success flag (the Python call best_vehicle.add_item(..) through the list
that owns the packer). -/
def commitAt : List VehiclePacker → Nat → Item → Option Int → Option Int →
    Bool × List VehiclePacker
  | [], _, _, _, _ => (false, [])
  | v :: tl, 0, it, a, b =>
      let r := v.add_item it a b
      (r.1, r.2 :: tl)
  | v :: tl, Nat.succ n, it, a, b =>
      let r := commitAt tl n it a b
      (r.1, v :: r.2)

/-- Running solver state: the open packers and the unplaced parcels. -/
structure SolveState where
  vehicles : List VehiclePacker
  unplaced_items : List Item
deriving Repr

/-- One constructive step of solve: best-fit over the existing packers,
else a fresh packer, else the parcel is recorded unplaced. -/
def constructStep (v : Vehicle) (use : Bool) (zones : List (Int × (Int × Int)))
    (st : SolveState) (it : Item) : SolveState :=
  let zb := getZoneForItem use zones it
  let x_min := zb.map (fun z => z.1)
  let x_max := zb.map (fun z => z.2)
  let c :=
    match bestVehicleIdx st.vehicles it x_min x_max none with
    | some i => commitAt st.vehicles i it x_min x_max
    | none => (false, st.vehicles)
  if c.1 then { st with vehicles := c.2 }
  else
    let nv := VehiclePacker.init v (c.2.length : Int)
    let r := nv.add_item it x_min x_max
    if r.1 then { st with vehicles := c.2 ++ [r.2] }
    else { st with vehicles := c.2, unplaced_items := st.unplaced_items ++ [it] }

/-- Index of the first packer attaining the minimum utilization
(_try_close_one_vehicle, the min_util scan starting from infinity). -/
def minUtilIdx (vs : List VehiclePacker) : Option Nat :=
  (vs.enum.foldl (fun (acc : Option (Nat × ℚ)) p =>
      match acc with
      | none => some (p.1, p.2.utilization_rate)
      | some (i, m) =>
          if p.2.utilization_rate < m then some (p.1, p.2.utilization_rate)
          else some (i, m)) none).map (fun q => q.1)

/-- Scoring pass of _try_close_one_vehicle: find a host for every parcel
of the target packer against the unchanged current state; abort with
none when any parcel has no host. -/
def planMoves (use : Bool) (zones : List (Int × (Int × Int)))
    (vs : List VehiclePacker) (tgt : Nat) :
    List Item → Option (List (Nat × Item × Option Int × Option Int))
  | [] => some []
  | it :: rest =>
      let zb := getZoneForItem use zones it
      let x_min := zb.map (fun z => z.1)
      let x_max := zb.map (fun z => z.2)
      match bestVehicleIdx vs it x_min x_max (some tgt) with
      | none => none
      | some i =>
          match planMoves use zones vs tgt rest with
          | none => none
          | some plan => some ((i, it, x_min, x_max) :: plan)

/-- Renumbering after a packer deletion: packer ids and the vehicle_id of
all their placements are reset to the list position. -/
def renumber (vs : List VehiclePacker) : List VehiclePacker :=
  vs.enum.map (fun p =>
    { p.2 with
      vehicle_id := (p.1 : Int),
      placements := p.2.placements.map (fun pl => { pl with vehicle_id := (p.1 : Int) }) })

/-- One local-search move (_try_close_one_vehicle): pick the least
utilized packer, plan a host for each of its parcels against the current
state, then commit all planned insertions in order ignoring their
success flags, delete the target and renumber. -/
def tryCloseOneVehicle (use : Bool) (zones : List (Int × (Int × Int)))
    (items : List Item) (vs : List VehiclePacker) : Bool × List VehiclePacker :=
  if vs.length ≤ 1 then (false, vs)
  else
    match minUtilIdx vs with
    | none => (false, vs)
    | some tgt =>
        match vs[tgt]? with
        | none => (false, vs)
        | some target =>
            match planMoves use zones vs tgt (target.placements.filterMap
                (fun pl => items.find? (fun jt => jt.id == pl.item_id))) with
            | none => (false, vs)
            | some plan =>
                (true, renumber ((plan.foldl
                  (fun acc e => (commitAt acc e.1 e.2.1 e.2.2.1 e.2.2.2).2) vs).eraseIdx tgt))

/-- Local-search driver (_local_search_close_vehicles): up to 10 rounds
while a packer is closed. -/
def localSearch (use : Bool) (zones : List (Int × (Int × Int))) (items : List Item) :
    Nat → List VehiclePacker → List VehiclePacker
  | 0, vs => vs
  | Nat.succ n, vs =>
      match tryCloseOneVehicle use zones items vs with
      | (true, vs2) => localSearch use zones items n vs2
      | (false, vs2) => vs2

/-- Full solve (BinPackingSolver.solve): sort, constructive best-fit, and
local search when every parcel was placed. -/
def solve (v : Vehicle) (items : List Item) (h : SortingHeuristic) (use : Bool) :
    SolveState :=
  let zones := computeDeliveryZones use v items
  let sorted := sort_items h items
  let st := sorted.foldl (constructStep v use zones) ⟨[], []⟩
  if st.unplaced_items.isEmpty then
    { st with vehicles := localSearch use zones items 10 st.vehicles }
  else st

/-- Collected placements of a solution (get_all_placements). -/
def get_all_placements (st : SolveState) : List Placement :=
  (st.vehicles.map (fun vp => vp.placements)).flatten

end BinPack

namespace BinPack

/-- Sum of the box volumes of a placement list. -/
def sumVol (ps : List Placement) : Int :=
  (ps.map (fun pl => pl.length * pl.width * pl.height)).sum

/-- Well-formed parcel list: positive dimensions, and every stored
orientation is one of the six dimension permutations (as established by
Item.__post_init__ for parsed input). -/
def ItemsWF (items : List Item) : Prop :=
  ∀ it ∈ items, 0 < it.length ∧ 0 < it.width ∧ 0 < it.height ∧
    ∀ o ∈ it.orientations, o ∈ allOrientations it.length it.width it.height

/-- Parcel identifiers are pairwise distinct (parse_input numbers them
0, 1, 2, ..). -/
def IdsNodup (items : List Item) : Prop :=
  (items.map (fun it => it.id)).Nodup

/-- Link between the x bounds passed to a packer call and the delivery
zone of the parcel being placed; every call site of add_item and
try_add_item_with_score inside solve satisfies this by construction. -/
def ZoneArgs (use : Bool) (zones : List (Int × (Int × Int))) (it : Item)
    (x_min x_max : Option Int) : Prop :=
  x_min = (getZoneForItem use zones it).map (fun z => z.1) ∧
  x_max = (getZoneForItem use zones it).map (fun z => z.2)

/-- Everything the placement search guarantees about a returned tuple. -/
structure FindOk (vp : VehiclePacker) (it : Item) (x_min x_max : Option Int)
    (x y z l w h : Int) : Prop where
  ori : (l, w, h) ∈ it.orientations
  xbd : x + l ≤ vp.vehicle.length
  ybd : y + w ≤ vp.vehicle.width
  zbd : z + h ≤ vp.vehicle.height
  zlow : ∀ m, x_min = some m → m ≤ x
  zhigh : ∀ m, x_max = some m → x + l ≤ m
  nov : ∀ p ∈ vp.placements,
    (Placement.mk vp.vehicle_id it.id x y z l w h).overlaps_with p = false
  anchor : (x, y, z) = (0, 0, 0) ∨ (x, y, z) ∈ candidateCorners vp.placements

/-- Invariant of one placement inside a solver run. -/
structure PlacementOK (items : List Item) (use : Bool)
    (zones : List (Int × (Int × Int))) (v : Vehicle) (pl : Placement) : Prop where
  xnn : 0 ≤ pl.x
  ynn : 0 ≤ pl.y
  znn : 0 ≤ pl.z
  lpos : 0 < pl.length
  wpos : 0 < pl.width
  hpos : 0 < pl.height
  xbd : pl.x + pl.length ≤ v.length
  ybd : pl.y + pl.width ≤ v.width
  zbd : pl.z + pl.height ≤ v.height
  src : ∃ it ∈ items, it.id = pl.item_id ∧ (pl.length, pl.width, pl.height) ∈ it.orientations
  zone : ∀ it ∈ items, it.id = pl.item_id →
    ∀ zn, getZoneForItem use zones it = some zn → zn.1 ≤ pl.x ∧ pl.x + pl.length ≤ zn.2

/-- Invariant of one vehicle packer inside a solver run. -/
structure GoodPacker (items : List Item) (use : Bool)
    (zones : List (Int × (Int × Int))) (tmpl : Vehicle) (vp : VehiclePacker) : Prop where
  veh : vp.vehicle = tmpl
  ok : ∀ pl ∈ vp.placements, PlacementOK items use zones tmpl pl
  disj : vp.placements.Pairwise (fun p q => p.overlaps_with q = false)
  vol : vp.occupied_volume = sumVol vp.placements
  plvid : ∀ pl ∈ vp.placements, pl.vehicle_id = vp.vehicle_id

/-- Invariant of the packer list: every packer is good and packer ids
coincide with list positions. -/
def GoodVehicles (items : List Item) (use : Bool)
    (zones : List (Int × (Int × Int))) (tmpl : Vehicle) (vs : List VehiclePacker) : Prop :=
  (∀ vp ∈ vs, GoodPacker items use zones tmpl vp) ∧
  ∀ (i : Nat) (vp : VehiclePacker), vs[i]? = some vp → vp.vehicle_id = (i : Int)

/-- Integer lattice cells occupied by a placement. -/
def cells (pl : Placement) : Finset (ℤ × ℤ × ℤ) :=
  (Finset.Ico pl.x (pl.x + pl.length)) ×ˢ
    ((Finset.Ico pl.y (pl.y + pl.width)) ×ˢ (Finset.Ico pl.z (pl.z + pl.height)))

/-- Integer lattice cells of the vehicle interior. -/
def bigBox (v : Vehicle) : Finset (ℤ × ℤ × ℤ) :=
  (Finset.Ico (0 : ℤ) v.length) ×ˢ
    ((Finset.Ico (0 : ℤ) v.width) ×ˢ (Finset.Ico (0 : ℤ) v.height))

/-- Union of the cells of a placement list. -/
def unionCells (ps : List Placement) : Finset (ℤ × ℤ × ℤ) :=
  ps.foldr (fun pl acc => cells pl ∪ acc) ∅

/-- Concrete parcels of the local-search loss instance: flat squares
4, 4, 4, 4, 6, 4, 4, 2 in a 10 x 10 x 1 vehicle. -/
def c2items : List Item :=
  [mkItem 0 4 4 1 (-1), mkItem 1 4 4 1 (-1), mkItem 2 4 4 1 (-1), mkItem 3 4 4 1 (-1),
   mkItem 4 6 6 1 (-1), mkItem 5 4 4 1 (-1), mkItem 6 4 4 1 (-1), mkItem 7 2 2 1 (-1)]

/-- Concrete parcels of spec scenario 5: two 10-cubes with delivery
times 0 and 1 for the 30 x 10 x 10 vehicle. -/
def c4items : List Item :=
  [mkItem 0 10 10 10 0, mkItem 1 10 10 10 1]

end BinPack

namespace BinPack

theorem removeFirstById_eq_none {iid : Int} {ps : List Placement}
    (h : ∀ pl ∈ ps, pl.item_id ≠ iid) : removeFirstById iid ps = none := by
  induction ps with
  | nil => rfl
  | cons p rest ih =>
      have hp : p.item_id ≠ iid := h p (List.mem_cons_self _ _)
      have hr := ih (fun pl hpl => h pl (List.mem_cons_of_mem _ hpl))
      simp [removeFirstById, hp, hr]

theorem removeFirstById_eq_some {iid : Int} {p : Placement} (pre post : List Placement)
    (hpre : ∀ q ∈ pre, q.item_id ≠ iid) (hp : p.item_id = iid) :
    removeFirstById iid (pre ++ p :: post) = some (p, pre ++ post) := by
  induction pre with
  | nil => simp [removeFirstById, hp]
  | cons q rest ih =>
      have hq : q.item_id ≠ iid := hpre q (List.mem_cons_self _ _)
      have hr := ih (fun r hr => hpre r (List.mem_cons_of_mem _ hr))
      simp [removeFirstById, hq, hr]

/-- C10: VehiclePacker.remove_item is atomic on failure and, on success,
removes exactly the first placement in list order carrying the id,
decreases occupied_volume by that box volume, leaves every other
placement unchanged, and returns the matching flag. -/
theorem remove_item_spec (vp : VehiclePacker) (iid : Int) :
    ((∀ pl ∈ vp.placements, pl.item_id ≠ iid) → vp.remove_item iid = (false, vp)) ∧
    (∀ pre p post, vp.placements = pre ++ p :: post →
      (∀ q ∈ pre, q.item_id ≠ iid) → p.item_id = iid →
      vp.remove_item iid = (true, { vp with
        placements := pre ++ post,
        occupied_volume := vp.occupied_volume - p.length * p.width * p.height })) := by
  constructor
  · intro h
    simp [VehiclePacker.remove_item, removeFirstById_eq_none h]
  · intro pre p post hsplit hpre hp
    have h1 : removeFirstById iid vp.placements = some (p, pre ++ post) := by
      rw [hsplit]; exact removeFirstById_eq_some pre post hpre hp
    simp [VehiclePacker.remove_item, h1]

/-- Witness for remove_item_spec: a concrete two-placement packer from
which the placement with item id 5 is removed. -/
theorem remove_item_spec_witness :
    (VehiclePacker.mk ⟨10, 10, 10⟩ 0
        [Placement.mk 0 3 0 0 0 2 2 2, Placement.mk 0 5 2 0 0 1 1 1] 9 none).remove_item 5 =
      (true, VehiclePacker.mk ⟨10, 10, 10⟩ 0 [Placement.mk 0 3 0 0 0 2 2 2] 8 none) := by
  have h := (remove_item_spec (VehiclePacker.mk ⟨10, 10, 10⟩ 0
      [Placement.mk 0 3 0 0 0 2 2 2, Placement.mk 0 5 2 0 0 1 1 1] 9 none) 5).2
      [Placement.mk 0 3 0 0 0 2 2 2] (Placement.mk 0 5 2 0 0 1 1 1) []
      (by decide) (by decide) (by decide)
  simpa using h

/-- C7: try_add_item_with_score does not mutate the packer, returns none
exactly when the placement search fails, and otherwise returns the
utilization ratio that committing the found placement would produce. -/
theorem try_add_item_with_score_spec (vp : VehiclePacker) (it : Item)
    (x_min x_max : Option Int) (hV : 0 < vp.vehicle.volume) :
    vp.try_add_item_with_score it x_min x_max =
      ((vp.find_placement_position it x_min x_max).map
        (fun _ => ((vp.occupied_volume + it.volume : Int) : ℚ) / ((vp.vehicle.volume : Int) : ℚ)),
       vp) := by
  unfold VehiclePacker.try_add_item_with_score
  cases h : vp.find_placement_position it x_min x_max with
  | none => simp
  | some r => simp [hV, Rat.divInt_eq_div]

/-- Witness for try_add_item_with_score_spec: the empty unit packer and a
unit cube, where the probe returns the score 1 and leaves the packer as
it was. -/
theorem try_add_item_with_score_spec_witness :
    0 < (VehiclePacker.init ⟨1, 1, 1⟩ 0).vehicle.volume ∧
    (VehiclePacker.init ⟨1, 1, 1⟩ 0).try_add_item_with_score (mkItem 0 1 1 1 (-1)) none none =
      (((VehiclePacker.init ⟨1, 1, 1⟩ 0).find_placement_position (mkItem 0 1 1 1 (-1)) none none).map
        (fun _ => (((VehiclePacker.init ⟨1, 1, 1⟩ 0).occupied_volume + (mkItem 0 1 1 1 (-1)).volume : Int) : ℚ) /
          (((VehiclePacker.init ⟨1, 1, 1⟩ 0).vehicle.volume : Int) : ℚ)),
       VehiclePacker.init ⟨1, 1, 1⟩ 0) :=
  ⟨by decide, try_add_item_with_score_spec _ _ none none (by decide)⟩

/-- C9: when the non-mutating probe returns a score, committing with
add_item on the same state succeeds, appends the placement found by the
search, adds the item volume to occupied_volume, and produces exactly
that utilization. -/
theorem try_add_score_implies_add_item (vp : VehiclePacker) (it : Item)
    (x_min x_max : Option Int) (s : ℚ) (hV : 0 < vp.vehicle.volume)
    (h : (vp.try_add_item_with_score it x_min x_max).1 = some s) :
    ∃ x y z l w hh,
      vp.find_placement_position it x_min x_max = some (x, y, z, l, w, hh) ∧
      vp.add_item it x_min x_max = (true, { vp with
        placements := vp.placements ++ [Placement.mk vp.vehicle_id it.id x y z l w hh],
        occupied_volume := vp.occupied_volume + it.volume }) ∧
      ({ vp with
        placements := vp.placements ++ [Placement.mk vp.vehicle_id it.id x y z l w hh],
        occupied_volume := vp.occupied_volume + it.volume } : VehiclePacker).utilization_rate = s := by
  cases hf : vp.find_placement_position it x_min x_max with
  | none =>
      exfalso
      unfold VehiclePacker.try_add_item_with_score at h
      rw [hf] at h
      simp at h
  | some r =>
      obtain ⟨x, y, z, l, w, hh⟩ := r
      refine ⟨x, y, z, l, w, hh, rfl, ?_, ?_⟩
      · unfold VehiclePacker.add_item
        rw [hf]
      · unfold VehiclePacker.try_add_item_with_score at h
        rw [hf] at h
        simp [hV] at h
        simp [VehiclePacker.utilization_rate, hV, ← h]

/-- Witness for try_add_score_implies_add_item: committing the unit cube
into the empty unit packer after a successful probe. -/
theorem try_add_score_implies_add_item_witness :
    ((VehiclePacker.init ⟨1, 1, 1⟩ 0).try_add_item_with_score (mkItem 0 1 1 1 (-1)) none none).1 =
        some 1 ∧
    ∃ x y z l w hh,
      (VehiclePacker.init ⟨1, 1, 1⟩ 0).find_placement_position (mkItem 0 1 1 1 (-1)) none none =
        some (x, y, z, l, w, hh) ∧
      (VehiclePacker.init ⟨1, 1, 1⟩ 0).add_item (mkItem 0 1 1 1 (-1)) none none =
        (true, { VehiclePacker.init ⟨1, 1, 1⟩ 0 with
          placements := (VehiclePacker.init ⟨1, 1, 1⟩ 0).placements ++
            [Placement.mk (VehiclePacker.init ⟨1, 1, 1⟩ 0).vehicle_id (mkItem 0 1 1 1 (-1)).id x y z l w hh],
          occupied_volume := (VehiclePacker.init ⟨1, 1, 1⟩ 0).occupied_volume + (mkItem 0 1 1 1 (-1)).volume }) ∧
      ({ VehiclePacker.init ⟨1, 1, 1⟩ 0 with
          placements := (VehiclePacker.init ⟨1, 1, 1⟩ 0).placements ++
            [Placement.mk (VehiclePacker.init ⟨1, 1, 1⟩ 0).vehicle_id (mkItem 0 1 1 1 (-1)).id x y z l w hh],
          occupied_volume := (VehiclePacker.init ⟨1, 1, 1⟩ 0).occupied_volume + (mkItem 0 1 1 1 (-1)).volume } : VehiclePacker).utilization_rate = 1 :=
  ⟨by decide, try_add_score_implies_add_item _ _ none none 1 (by decide) (by decide)⟩

end BinPack

namespace BinPack

theorem findSome?_eq_some_ex {α β : Type _} {l : List α} {f : α → Option β} {b : β}
    (h : l.findSome? f = some b) : ∃ a ∈ l, f a = some b := by
  induction l with
  | nil => simp [List.findSome?] at h
  | cons x xs ih =>
      rw [List.findSome?_cons] at h
      cases hx : f x with
      | none =>
          rw [hx] at h
          obtain ⟨a, ha, hfa⟩ := ih h
          exact ⟨a, List.mem_cons_of_mem _ ha, hfa⟩
      | some v =>
          rw [hx] at h
          exact ⟨x, List.mem_cons_self _ _, hx.trans h⟩

theorem overlaps_with_eq_false_iff {p q : Placement} :
    p.overlaps_with q = false ↔
      (p.x + p.length ≤ q.x ∨ q.x + q.length ≤ p.x ∨
       p.y + p.width ≤ q.y ∨ q.y + q.width ≤ p.y ∨
       p.z + p.height ≤ q.z ∨ q.z + q.height ≤ p.z) := by
  simp [Placement.overlaps_with]
  omega

theorem overlaps_false_symm {p q : Placement} (h : p.overlaps_with q = false) :
    q.overlaps_with p = false := by
  rw [overlaps_with_eq_false_iff] at h ⊢
  tauto

theorem mem_allOrientations_cases {l w h a b c : Int}
    (hm : (a, b, c) ∈ allOrientations l w h) :
    (a = l ∧ b = w ∧ c = h) ∨ (a = l ∧ b = h ∧ c = w) ∨
    (a = w ∧ b = l ∧ c = h) ∨ (a = w ∧ b = h ∧ c = l) ∨
    (a = h ∧ b = l ∧ c = w) ∨ (a = h ∧ b = w ∧ c = l) := by
  simp [allOrientations, Prod.ext_iff] at hm
  tauto

theorem allOrientations_prod {l w h a b c : Int}
    (hm : (a, b, c) ∈ allOrientations l w h) : a * b * c = l * w * h := by
  rcases mem_allOrientations_cases hm with
    ⟨h1, h2, h3⟩ | ⟨h1, h2, h3⟩ | ⟨h1, h2, h3⟩ | ⟨h1, h2, h3⟩ | ⟨h1, h2, h3⟩ | ⟨h1, h2, h3⟩ <;>
    subst h1 <;> subst h2 <;> subst h3 <;> ring

theorem allOrientations_pos {l w h a b c : Int} (hl : 0 < l) (hw : 0 < w) (hh : 0 < h)
    (hm : (a, b, c) ∈ allOrientations l w h) : 0 < a ∧ 0 < b ∧ 0 < c := by
  rcases mem_allOrientations_cases hm with
    ⟨h1, h2, h3⟩ | ⟨h1, h2, h3⟩ | ⟨h1, h2, h3⟩ | ⟨h1, h2, h3⟩ | ⟨h1, h2, h3⟩ | ⟨h1, h2, h3⟩ <;>
    subst h1 <;> subst h2 <;> subst h3 <;> exact ⟨by assumption, by assumption, by assumption⟩

theorem multiset_three_swap (a b c : ℤ) : ({a, b, c} : Multiset ℤ) = ({a, c, b} : Multiset ℤ) := by
  have : (b ::ₘ {c}) = (c ::ₘ {b}) := Multiset.cons_swap b c 0
  simp only [Multiset.insert_eq_cons]
  rw [this]

theorem multiset_front_swap (a b c : ℤ) : ({a, b, c} : Multiset ℤ) = ({b, a, c} : Multiset ℤ) := by
  simp only [Multiset.insert_eq_cons]
  exact Multiset.cons_swap a b _

theorem allOrientations_multiset {l w h a b c : Int}
    (hm : (a, b, c) ∈ allOrientations l w h) :
    ({a, b, c} : Multiset ℤ) = ({l, w, h} : Multiset ℤ) := by
  rcases mem_allOrientations_cases hm with
    ⟨h1, h2, h3⟩ | ⟨h1, h2, h3⟩ | ⟨h1, h2, h3⟩ | ⟨h1, h2, h3⟩ | ⟨h1, h2, h3⟩ | ⟨h1, h2, h3⟩ <;>
    subst h1 <;> subst h2 <;> subst h3
  · rfl
  · exact multiset_three_swap a b c
  · exact multiset_front_swap a b c
  · exact (multiset_three_swap a b c).trans (multiset_front_swap a c b)
  · exact (multiset_front_swap a b c).trans (multiset_three_swap b a c)
  · exact ((multiset_three_swap a b c).trans (multiset_front_swap a c b)).trans
      (multiset_three_swap c a b)

theorem candidateCorners_cons (p : Placement) (rest : List Placement) :
    candidateCorners (p :: rest) =
      (p.x + p.length, p.y, p.z) :: (p.x, p.y + p.width, p.z) ::
      (p.x, p.y, p.z + p.height) :: candidateCorners rest := rfl

theorem mem_candidateCorners {ps : List Placement} {c : Int × Int × Int}
    (h : c ∈ candidateCorners ps) :
    ∃ p ∈ ps, c = (p.x + p.length, p.y, p.z) ∨ c = (p.x, p.y + p.width, p.z) ∨
      c = (p.x, p.y, p.z + p.height) := by
  induction ps with
  | nil => simp [candidateCorners] at h
  | cons p rest ih =>
      rw [candidateCorners_cons] at h
      simp only [List.mem_cons] at h
      rcases h with h | h | h | h
      · exact ⟨p, List.mem_cons_self _ _, Or.inl h⟩
      · exact ⟨p, List.mem_cons_self _ _, Or.inr (Or.inl h)⟩
      · exact ⟨p, List.mem_cons_self _ _, Or.inr (Or.inr h)⟩
      · obtain ⟨q, hq, hc⟩ := ih h
        exact ⟨q, List.mem_cons_of_mem _ hq, hc⟩

theorem find_placement_spec {vp : VehiclePacker} {it : Item} {x_min x_max : Option Int}
    {x y z l w h : Int}
    (hf : vp.find_placement_position it x_min x_max = some (x, y, z, l, w, h)) :
    FindOk vp it x_min x_max x y z l w h := by
  unfold VehiclePacker.find_placement_position at hf
  by_cases he : (it.filter_orientations vp.vehicle).isEmpty
  · simp [he] at hf
  · rw [if_neg he] at hf
    obtain ⟨o, ho, hinner⟩ := findSome?_eq_some_ex hf
    obtain ⟨c, hc, hcheck⟩ := findSome?_eq_some_ex hinner
    have horis := List.mem_filter.mp ho
    split_ifs at hcheck with h1 h2 h3 h4
    · have hinj := Option.some.inj hcheck
      have e1 : c.1 = x := congrArg (fun t => t.1) hinj
      have e2 : c.2.1 = y := congrArg (fun t => t.2.1) hinj
      have e3 : c.2.2 = z := congrArg (fun t => t.2.2.1) hinj
      have e4 : o.1 = l := congrArg (fun t => t.2.2.2.1) hinj
      have e5 : o.2.1 = w := congrArg (fun t => t.2.2.2.2.1) hinj
      have e6 : o.2.2 = h := congrArg (fun t => t.2.2.2.2.2) hinj
      have ho6 : o = (l, w, h) := by rw [← e4, ← e5, ← e6]
      have hnb : (c.1 + o.1 ≤ vp.vehicle.length ∧ c.2.1 + o.2.1 ≤ vp.vehicle.width) ∧
          c.2.2 + o.2.2 ≤ vp.vehicle.height := by
        simpa using h3
      have hcands : c ∈ vp.candidate_positions := by
        have hcl : c ∈ vp.candidate_list x_min x_max := hc
        unfold VehiclePacker.candidate_list at hcl
        exact (List.mem_filter.mp ((List.mem_insertionSort posLe).mp hcl)).1
      constructor
      · rw [← ho6]
        exact horis.1
      · rw [← e1, ← e4]; omega
      · rw [← e2, ← e5]; omega
      · rw [← e3, ← e6]; omega
      · intro m hm
        rw [← e1]
        rw [hm] at h1
        simpa [zoneOkLow] using h1
      · intro m hm
        rw [← e1, ← e4]
        rw [hm] at h2
        simpa [zoneOkHigh] using h2
      · intro p hp
        rw [← e1, ← e2, ← e3, ← e4, ← e5, ← e6]
        have h4f : (vp.placements.any fun p =>
            (Placement.mk vp.vehicle_id it.id c.1 c.2.1 c.2.2 o.1 o.2.1 o.2.2).overlaps_with p)
              = false := by
          simpa using h4
        have hall := List.any_eq_false.mp h4f
        simpa using hall p hp
      · have hceq : (x, y, z) = c := by rw [← e1, ← e2, ← e3]
        rw [hceq]
        have hmem : c ∈ ((0, 0, 0) :: candidateCorners vp.placements) :=
          List.mem_dedup.mp hcands
        simp only [List.mem_cons] at hmem
        rcases hmem with hh | hh
        · exact Or.inl hh
        · exact Or.inr hh

end BinPack

namespace BinPack

theorem add_item_none {vp : VehiclePacker} {it : Item} {a b : Option Int}
    (h : vp.find_placement_position it a b = none) :
    vp.add_item it a b = (false, vp) := by
  unfold VehiclePacker.add_item
  rw [h]

theorem add_item_some {vp : VehiclePacker} {it : Item} {a b : Option Int}
    {x y z l w h : Int}
    (hf : vp.find_placement_position it a b = some (x, y, z, l, w, h)) :
    vp.add_item it a b = (true, { vp with
      placements := vp.placements ++ [Placement.mk vp.vehicle_id it.id x y z l w h],
      occupied_volume := vp.occupied_volume + it.volume }) := by
  unfold VehiclePacker.add_item
  rw [hf]

theorem add_item_vehicle (vp : VehiclePacker) (it : Item) (a b : Option Int) :
    (vp.add_item it a b).2.vehicle = vp.vehicle := by
  cases hfo : vp.find_placement_position it a b with
  | none => rw [add_item_none hfo]
  | some r =>
      obtain ⟨x, y, z, l, w, h⟩ := r
      rw [add_item_some hfo]

theorem add_item_vid (vp : VehiclePacker) (it : Item) (a b : Option Int) :
    (vp.add_item it a b).2.vehicle_id = vp.vehicle_id := by
  cases hfo : vp.find_placement_position it a b with
  | none => rw [add_item_none hfo]
  | some r =>
      obtain ⟨x, y, z, l, w, h⟩ := r
      rw [add_item_some hfo]

theorem sumVol_append_single (ps : List Placement) (p : Placement) :
    sumVol (ps ++ [p]) = sumVol ps + p.length * p.width * p.height := by
  simp [sumVol]

theorem eq_of_id_eq {items : List Item} (hids : IdsNodup items) {a b : Item}
    (ha : a ∈ items) (hb : b ∈ items) (h : a.id = b.id) : a = b :=
  List.inj_on_of_nodup_map hids ha hb h

theorem init_good (items : List Item) (use : Bool) (zones : List (Int × (Int × Int)))
    (tmpl : Vehicle) (vid : Int) :
    GoodPacker items use zones tmpl (VehiclePacker.init tmpl vid) := by
  refine ⟨rfl, ?_, ?_, rfl, ?_⟩
  · intro pl hpl
    simp [VehiclePacker.init] at hpl
  · exact List.Pairwise.nil
  · intro pl hpl
    simp [VehiclePacker.init] at hpl

theorem add_item_good {items : List Item} {use : Bool} {zones : List (Int × (Int × Int))}
    {tmpl : Vehicle} {vp : VehiclePacker} {it : Item} {x_min x_max : Option Int}
    (hwf : ItemsWF items) (hids : IdsNodup items) (hit : it ∈ items)
    (hz : ZoneArgs use zones it x_min x_max)
    (hg : GoodPacker items use zones tmpl vp) :
    GoodPacker items use zones tmpl (vp.add_item it x_min x_max).2 := by
  cases hfo : vp.find_placement_position it x_min x_max with
  | none => rw [add_item_none hfo]; exact hg
  | some r =>
      obtain ⟨x, y, z, l, w, h⟩ := r
      rw [add_item_some hfo]
      have hspec := find_placement_spec hfo
      obtain ⟨hitl, hitw, hith, hito⟩ := hwf it hit
      obtain ⟨hdl, hdw, hdh⟩ := allOrientations_pos hitl hitw hith (hito _ hspec.ori)
      have hnn : 0 ≤ x ∧ 0 ≤ y ∧ 0 ≤ z := by
        rcases hspec.anchor with h0 | hcor
        · obtain ⟨u1, u2, u3⟩ : x = 0 ∧ y = 0 ∧ z = 0 := by
            simpa [Prod.ext_iff] using h0
          omega
        · obtain ⟨p, hp, hforms⟩ := mem_candidateCorners hcor
          have hpok := hg.ok p hp
          have hb := hpok.xnn
          have hb2 := hpok.ynn
          have hb3 := hpok.znn
          have hb4 := hpok.lpos
          have hb5 := hpok.wpos
          have hb6 := hpok.hpos
          rcases hforms with he | he | he <;>
            (obtain ⟨u1, u2, u3⟩ :
                x = _ ∧ y = _ ∧ z = _ := by simpa [Prod.ext_iff] using he) <;>
            omega
      obtain ⟨hx0, hy0, hz0⟩ := hnn
      have hnew : PlacementOK items use zones tmpl
          (Placement.mk vp.vehicle_id it.id x y z l w h) := by
        refine ⟨hx0, hy0, hz0, hdl, hdw, hdh, ?_, ?_, ?_, ?_, ?_⟩
        · have := hspec.xbd; rw [hg.veh] at this; exact this
        · have := hspec.ybd; rw [hg.veh] at this; exact this
        · have := hspec.zbd; rw [hg.veh] at this; exact this
        · exact ⟨it, hit, rfl, hspec.ori⟩
        · intro it2 hit2 hid zn hzn
          have heq : it2 = it := eq_of_id_eq hids hit2 hit hid
          subst heq
          obtain ⟨hz1, hz2⟩ := hz
          rw [hzn] at hz1 hz2
          constructor
          · exact hspec.zlow zn.1 hz1
          · exact hspec.zhigh zn.2 hz2
      refine ⟨hg.veh, ?_, ?_, ?_, ?_⟩
      · intro pl hpl
        rcases List.mem_append.mp hpl with hin | hin
        · exact hg.ok pl hin
        · rw [List.mem_singleton.mp hin]
          exact hnew
      · rw [List.pairwise_append]
        refine ⟨hg.disj, List.pairwise_singleton _ _, ?_⟩
        intro p hp q hq
        rw [List.mem_singleton.mp hq]
        exact overlaps_false_symm (hspec.nov p hp)
      · rw [sumVol_append_single]
        have hprod : l * w * h = it.length * it.width * it.height :=
          allOrientations_prod (hito _ hspec.ori)
        rw [← hg.vol]
        simp [Item.volume]
        omega
      · intro pl hpl
        rcases List.mem_append.mp hpl with hin | hin
        · exact hg.plvid pl hin
        · rw [List.mem_singleton.mp hin]

end BinPack

namespace BinPack

theorem commitAt_mem {it : Item} {a b : Option Int} :
    ∀ (vs : List VehiclePacker) (i : Nat), ∀ u ∈ (commitAt vs i it a b).2,
      ∃ v ∈ vs, u = v ∨ u = (v.add_item it a b).2
  | [], _ => by
      intro u hu
      simp [commitAt] at hu
  | v :: tl, 0 => by
      intro u hu
      simp only [commitAt] at hu
      rcases List.mem_cons.mp hu with h | h
      · exact ⟨v, List.mem_cons_self _ _, Or.inr h⟩
      · exact ⟨u, List.mem_cons_of_mem _ h, Or.inl rfl⟩
  | v :: tl, Nat.succ n => by
      intro u hu
      simp only [commitAt] at hu
      rcases List.mem_cons.mp hu with h | h
      · exact ⟨v, List.mem_cons_self _ _, Or.inl h⟩
      · obtain ⟨w, hw, hc⟩ := commitAt_mem tl n u h
        exact ⟨w, List.mem_cons_of_mem _ hw, hc⟩

theorem commitAt_vidmap (it : Item) (a b : Option Int) :
    ∀ (vs : List VehiclePacker) (i : Nat),
      (commitAt vs i it a b).2.map (fun v => v.vehicle_id) =
        vs.map (fun v => v.vehicle_id)
  | [], _ => rfl
  | v :: tl, 0 => by
      simp [commitAt, add_item_vid]
  | v :: tl, Nat.succ n => by
      simp [commitAt, commitAt_vidmap it a b tl n]

theorem vids_from_map_eq {vs ws : List VehiclePacker}
    (hmap : ws.map (fun v => v.vehicle_id) = vs.map (fun v => v.vehicle_id))
    (hvs : ∀ (i : Nat) (vp : VehiclePacker), vs[i]? = some vp → vp.vehicle_id = (i : Int)) :
    ∀ (i : Nat) (vp : VehiclePacker), ws[i]? = some vp → vp.vehicle_id = (i : Int) := by
  intro i vp hvp
  have h1 : (ws.map (fun v => v.vehicle_id))[i]? = some vp.vehicle_id := by
    rw [List.getElem?_map, hvp]
    rfl
  rw [hmap, List.getElem?_map] at h1
  cases hv : vs[i]? with
  | none => rw [hv] at h1; simp at h1
  | some v =>
      rw [hv] at h1
      simp at h1
      rw [← h1]
      exact hvs i v hv

theorem planMoves_cons (use : Bool) (zones : List (Int × (Int × Int)))
    (vs : List VehiclePacker) (tgt : Nat) (it : Item) (rest : List Item) :
    planMoves use zones vs tgt (it :: rest) =
      match bestVehicleIdx vs it ((getZoneForItem use zones it).map (fun z => z.1))
          ((getZoneForItem use zones it).map (fun z => z.2)) (some tgt) with
      | none => none
      | some i =>
          match planMoves use zones vs tgt rest with
          | none => none
          | some plan => some ((i, it,
              (getZoneForItem use zones it).map (fun z => z.1),
              (getZoneForItem use zones it).map (fun z => z.2)) :: plan) := rfl

theorem planMoves_entries {use : Bool} {zones : List (Int × (Int × Int))}
    {vs : List VehiclePacker} {tgt : Nat} :
    ∀ (l : List Item) (plan : List (Nat × Item × Option Int × Option Int)),
      planMoves use zones vs tgt l = some plan →
      ∀ e ∈ plan, e.2.1 ∈ l ∧ ZoneArgs use zones e.2.1 e.2.2.1 e.2.2.2 := by
  intro l
  induction l with
  | nil =>
      intro plan h e he
      simp only [planMoves] at h
      rw [← Option.some.inj h] at he
      simp at he
  | cons it rest ih =>
      intro plan h e he
      rw [planMoves_cons] at h
      cases hb : bestVehicleIdx vs it
          ((getZoneForItem use zones it).map (fun z => z.1))
          ((getZoneForItem use zones it).map (fun z => z.2)) (some tgt) with
      | none => rw [hb] at h; simp at h
      | some i =>
          rw [hb] at h
          cases hp : planMoves use zones vs tgt rest with
          | none => rw [hp] at h; simp at h
          | some plan2 =>
              rw [hp] at h
              rw [← Option.some.inj h] at he
              rcases List.mem_cons.mp he with hh | hh
              · subst hh
                exact ⟨List.mem_cons_self _ _, rfl, rfl⟩
              · obtain ⟨h1, h2⟩ := ih plan2 hp e hh
                exact ⟨List.mem_cons_of_mem _ h1, h2⟩

theorem toMove_subset {items : List Item} {ps : List Placement} :
    ∀ u ∈ ps.filterMap (fun pl => items.find? (fun jt => jt.id == pl.item_id)), u ∈ items := by
  intro u hu
  obtain ⟨pl, _, hfind⟩ := List.mem_filterMap.mp hu
  exact List.mem_of_find?_eq_some hfind

theorem mem_of_mem_eraseIdx {vs : List VehiclePacker} {i : Nat} {u : VehiclePacker}
    (h : u ∈ vs.eraseIdx i) : u ∈ vs :=
  (List.eraseIdx_sublist vs i).subset h

theorem goodPacker_renumber_one {items : List Item} {use : Bool}
    {zones : List (Int × (Int × Int))} {tmpl : Vehicle} {vp : VehiclePacker} (n : Int)
    (h : GoodPacker items use zones tmpl vp) :
    GoodPacker items use zones tmpl { vp with
      vehicle_id := n,
      placements := vp.placements.map (fun pl => { pl with vehicle_id := n }) } := by
  refine ⟨h.veh, ?_, ?_, ?_, ?_⟩
  · intro pl hpl
    obtain ⟨q, hq, hqe⟩ := List.mem_map.mp hpl
    rw [← hqe]
    have hok := h.ok q hq
    exact ⟨hok.xnn, hok.ynn, hok.znn, hok.lpos, hok.wpos, hok.hpos,
      hok.xbd, hok.ybd, hok.zbd, hok.src, hok.zone⟩
  · rw [List.pairwise_map]
    exact h.disj.imp (fun hab => hab)
  · show vp.occupied_volume = sumVol (vp.placements.map _)
    rw [h.vol]
    unfold sumVol
    rw [List.map_map]
    rfl
  · intro pl hpl
    obtain ⟨q, hq, hqe⟩ := List.mem_map.mp hpl
    rw [← hqe]

theorem renumber_getElem? (vs : List VehiclePacker) (i : Nat) :
    (renumber vs)[i]? = (vs[i]?).map (fun v => { v with
      vehicle_id := (i : Int),
      placements := v.placements.map (fun pl => { pl with vehicle_id := (i : Int) }) }) := by
  unfold renumber
  rw [List.getElem?_map]
  rw [show vs.enum = vs.enumFrom 0 from rfl]
  rw [List.getElem?_enumFrom]
  cases vs[i]? with
  | none => rfl
  | some v => simp

theorem renumber_good {items : List Item} {use : Bool} {zones : List (Int × (Int × Int))}
    {tmpl : Vehicle} {vs : List VehiclePacker}
    (h : ∀ vp ∈ vs, GoodPacker items use zones tmpl vp) :
    GoodVehicles items use zones tmpl (renumber vs) := by
  constructor
  · intro u hu
    obtain ⟨i, hi⟩ := List.mem_iff_getElem?.mp hu
    rw [renumber_getElem?] at hi
    cases hv : vs[i]? with
    | none => rw [hv] at hi; simp at hi
    | some v =>
        rw [hv] at hi
        simp only [Option.map_some'] at hi
        rw [← Option.some.inj hi]
        exact goodPacker_renumber_one _ (h v (List.mem_iff_getElem?.mpr ⟨i, hv⟩))
  · intro i vp hvp
    rw [renumber_getElem?] at hvp
    cases hv : vs[i]? with
    | none => rw [hv] at hvp; simp at hvp
    | some v =>
        rw [hv] at hvp
        simp only [Option.map_some'] at hvp
        rw [← Option.some.inj hvp]

end BinPack

namespace BinPack

theorem commitAt_goodVehicles {items : List Item} {use : Bool}
    {zones : List (Int × (Int × Int))} {tmpl : Vehicle}
    {vs : List VehiclePacker} {i : Nat} {it : Item} {a b : Option Int}
    (hwf : ItemsWF items) (hids : IdsNodup items) (hit : it ∈ items)
    (hz : ZoneArgs use zones it a b)
    (hg : GoodVehicles items use zones tmpl vs) :
    GoodVehicles items use zones tmpl (commitAt vs i it a b).2 := by
  constructor
  · intro u hu
    obtain ⟨v, hv, hc⟩ := commitAt_mem vs i u hu
    rcases hc with h | h
    · rw [h]; exact hg.1 v hv
    · rw [h]; exact add_item_good hwf hids hit hz (hg.1 v hv)
  · exact vids_from_map_eq (commitAt_vidmap it a b vs i) hg.2

theorem commit_fold_good {items : List Item} {use : Bool}
    {zones : List (Int × (Int × Int))} {tmpl : Vehicle}
    (hwf : ItemsWF items) (hids : IdsNodup items) :
    ∀ (plan : List (Nat × Item × Option Int × Option Int)) (vs : List VehiclePacker),
      GoodVehicles items use zones tmpl vs →
      (∀ e ∈ plan, e.2.1 ∈ items ∧ ZoneArgs use zones e.2.1 e.2.2.1 e.2.2.2) →
      GoodVehicles items use zones tmpl
        (plan.foldl (fun acc e => (commitAt acc e.1 e.2.1 e.2.2.1 e.2.2.2).2) vs) := by
  intro plan
  induction plan with
  | nil => intro vs hvs _; exact hvs
  | cons e rest ih =>
      intro vs hvs hent
      have he := hent e (List.mem_cons_self _ _)
      exact ih _ (commitAt_goodVehicles hwf hids he.1 he.2 hvs)
        (fun e2 he2 => hent e2 (List.mem_cons_of_mem _ he2))

theorem tryClose_good {items : List Item} {use : Bool}
    {zones : List (Int × (Int × Int))} {tmpl : Vehicle} {vs : List VehiclePacker}
    (hwf : ItemsWF items) (hids : IdsNodup items)
    (hg : GoodVehicles items use zones tmpl vs) :
    GoodVehicles items use zones tmpl (tryCloseOneVehicle use zones items vs).2 := by
  unfold tryCloseOneVehicle
  by_cases hlen : vs.length ≤ 1
  · rw [if_pos hlen]; exact hg
  · rw [if_neg hlen]
    repeat' split
    all_goals try exact hg
    rename_i plan hplan
    refine renumber_good ?_
    intro vp hvp
    have hent : ∀ e ∈ plan, e.2.1 ∈ items ∧ ZoneArgs use zones e.2.1 e.2.2.1 e.2.2.2 := by
      intro e he
      obtain ⟨h1, h2⟩ := planMoves_entries _ plan hplan e he
      exact ⟨toMove_subset _ h1, h2⟩
    exact (commit_fold_good hwf hids plan vs hg hent).1 vp (mem_of_mem_eraseIdx hvp)

theorem localSearch_good {items : List Item} {use : Bool}
    {zones : List (Int × (Int × Int))} {tmpl : Vehicle}
    (hwf : ItemsWF items) (hids : IdsNodup items) :
    ∀ (n : Nat) (vs : List VehiclePacker),
      GoodVehicles items use zones tmpl vs →
      GoodVehicles items use zones tmpl (localSearch use zones items n vs) := by
  intro n
  induction n with
  | zero => intro vs hg; exact hg
  | succ m ih =>
      intro vs hg
      unfold localSearch
      cases hc : tryCloseOneVehicle use zones items vs with
      | mk flag vs2 =>
          have hgood : GoodVehicles items use zones tmpl vs2 := by
            have := tryClose_good hwf hids hg
            rw [hc] at this
            exact this
          cases flag with
          | true => exact ih vs2 hgood
          | false => exact hgood

theorem goodVehicles_nil {items : List Item} {use : Bool}
    {zones : List (Int × (Int × Int))} {tmpl : Vehicle} :
    GoodVehicles items use zones tmpl [] := by
  constructor
  · intro vp hvp; simp at hvp
  · intro i vp hvp; simp at hvp

theorem goodVehicles_append_one {items : List Item} {use : Bool}
    {zones : List (Int × (Int × Int))} {tmpl : Vehicle}
    {vs : List VehiclePacker} {u : VehiclePacker}
    (hg : GoodVehicles items use zones tmpl vs)
    (hu : GoodPacker items use zones tmpl u)
    (hvid : u.vehicle_id = (vs.length : Int)) :
    GoodVehicles items use zones tmpl (vs ++ [u]) := by
  constructor
  · intro vp hvp
    rcases List.mem_append.mp hvp with h | h
    · exact hg.1 vp h
    · rw [List.mem_singleton.mp h]; exact hu
  · intro i vp hvp
    by_cases hi : i < vs.length
    · rw [List.getElem?_append_left hi] at hvp
      exact hg.2 i vp hvp
    · have hge : vs.length ≤ i := Nat.le_of_not_lt hi
      rw [List.getElem?_append_right hge] at hvp
      cases hk : i - vs.length with
      | zero =>
          rw [hk] at hvp
          simp at hvp
          have : i = vs.length := by omega
          rw [← hvp, this, hvid]
      | succ m =>
          rw [hk] at hvp
          simp at hvp

theorem constructStep_good {items : List Item} {use : Bool}
    {zones : List (Int × (Int × Int))} {tmpl : Vehicle}
    (hwf : ItemsWF items) (hids : IdsNodup items)
    {st : SolveState} (hg : GoodVehicles items use zones tmpl st.vehicles)
    {it : Item} (hit : it ∈ items) :
    GoodVehicles items use zones tmpl (constructStep tmpl use zones st it).vehicles := by
  unfold constructStep
  have hz : ZoneArgs use zones it
      ((getZoneForItem use zones it).map (fun z => z.1))
      ((getZoneForItem use zones it).map (fun z => z.2)) := ⟨rfl, rfl⟩
  cases hb : bestVehicleIdx st.vehicles it
      ((getZoneForItem use zones it).map (fun z => z.1))
      ((getZoneForItem use zones it).map (fun z => z.2)) none with
  | some i =>
      have hcg : GoodVehicles items use zones tmpl
          (commitAt st.vehicles i it
            ((getZoneForItem use zones it).map (fun z => z.1))
            ((getZoneForItem use zones it).map (fun z => z.2))).2 :=
        commitAt_goodVehicles hwf hids hit hz hg
      by_cases hc1 : (commitAt st.vehicles i it
          ((getZoneForItem use zones it).map (fun z => z.1))
          ((getZoneForItem use zones it).map (fun z => z.2))).1
      · simp only [hb, hc1, if_true]
        exact hcg
      · simp only [hb, Bool.not_eq_true] at hc1
        simp only [hb, hc1, Bool.false_eq_true, if_false]
        set vs1 := (commitAt st.vehicles i it
            ((getZoneForItem use zones it).map (fun z => z.1))
            ((getZoneForItem use zones it).map (fun z => z.2))).2 with hvs1
        have hinit : GoodPacker items use zones tmpl
            (VehiclePacker.init tmpl (vs1.length : Int)) :=
          init_good items use zones tmpl _
        by_cases hr : ((VehiclePacker.init tmpl (vs1.length : Int)).add_item it
            ((getZoneForItem use zones it).map (fun z => z.1))
            ((getZoneForItem use zones it).map (fun z => z.2))).1
        · simp only [hr, if_true]
          exact goodVehicles_append_one hcg
            (add_item_good hwf hids hit hz hinit)
            (by rw [add_item_vid]; rfl)
        · simp only [Bool.not_eq_true] at hr
          simp only [hr, Bool.false_eq_true, if_false]
          exact hcg
  | none =>
      simp only [hb]
      set vs1 := st.vehicles
      have hinit : GoodPacker items use zones tmpl
          (VehiclePacker.init tmpl (vs1.length : Int)) :=
        init_good items use zones tmpl _
      by_cases hr : ((VehiclePacker.init tmpl (vs1.length : Int)).add_item it
          ((getZoneForItem use zones it).map (fun z => z.1))
          ((getZoneForItem use zones it).map (fun z => z.2))).1
      · simp only [hr, if_true]
        exact goodVehicles_append_one hg
          (add_item_good hwf hids hit hz hinit)
          (by rw [add_item_vid]; rfl)
      · simp only [Bool.not_eq_true] at hr
        simp only [hr, Bool.false_eq_true, if_false]
        exact hg

theorem foldl_construct_good {items : List Item} {use : Bool}
    {zones : List (Int × (Int × Int))} {tmpl : Vehicle}
    (hwf : ItemsWF items) (hids : IdsNodup items) :
    ∀ (l : List Item) (st : SolveState), (∀ x ∈ l, x ∈ items) →
      GoodVehicles items use zones tmpl st.vehicles →
      GoodVehicles items use zones tmpl
        ((l.foldl (constructStep tmpl use zones) st).vehicles) := by
  intro l
  induction l with
  | nil => intro st _ hg; exact hg
  | cons it rest ih =>
      intro st hmem hg
      exact ih _ (fun x hx => hmem x (List.mem_cons_of_mem _ hx))
        (constructStep_good hwf hids hg (hmem it (List.mem_cons_self _ _)))

theorem solve_eq (v : Vehicle) (items : List Item) (hh : SortingHeuristic) (use : Bool) :
    solve v items hh use =
      (if ((sort_items hh items).foldl
            (constructStep v use (computeDeliveryZones use v items)) ⟨[], []⟩).unplaced_items.isEmpty
       then { (sort_items hh items).foldl
                (constructStep v use (computeDeliveryZones use v items)) ⟨[], []⟩ with
              vehicles := localSearch use (computeDeliveryZones use v items) items 10
                (((sort_items hh items).foldl
                  (constructStep v use (computeDeliveryZones use v items)) ⟨[], []⟩).vehicles) }
       else (sort_items hh items).foldl
              (constructStep v use (computeDeliveryZones use v items)) ⟨[], []⟩) := rfl

theorem solve_goodVehicles (v : Vehicle) (items : List Item) (h : SortingHeuristic)
    (use : Bool) (hwf : ItemsWF items) (hids : IdsNodup items) :
    GoodVehicles items use (computeDeliveryZones use v items) v
      (solve v items h use).vehicles := by
  have hsorted : ∀ x ∈ sort_items h items, x ∈ items := by
    intro x hx
    unfold sort_items at hx
    exact (List.mem_insertionSort (itemLe h)).mp hx
  have hnil : GoodVehicles items use (computeDeliveryZones use v items) v
      (([] : List VehiclePacker)) := goodVehicles_nil
  have hconstr : GoodVehicles items use (computeDeliveryZones use v items) v
      (((sort_items h items).foldl
        (constructStep v use (computeDeliveryZones use v items)) ⟨[], []⟩).vehicles) :=
    foldl_construct_good hwf hids (sort_items h items) ⟨[], []⟩ hsorted hnil
  have hls := localSearch_good hwf hids 10 _ hconstr
  rw [solve_eq]
  by_cases hunp : ((sort_items h items).foldl
      (constructStep v use (computeDeliveryZones use v items)) ⟨[], []⟩).unplaced_items.isEmpty
  · rw [if_pos hunp]
    exact hls
  · rw [if_neg hunp]
    exact hconstr

end BinPack

namespace BinPack

theorem card_cells_int (pl : Placement) (hl : 0 < pl.length) (hw : 0 < pl.width)
    (hh : 0 < pl.height) :
    (((cells pl).card : ℤ)) = pl.length * pl.width * pl.height := by
  unfold cells
  rw [Finset.card_product, Finset.card_product, Int.card_Ico, Int.card_Ico, Int.card_Ico]
  push_cast
  rw [Int.toNat_of_nonneg (by omega), Int.toNat_of_nonneg (by omega),
    Int.toNat_of_nonneg (by omega)]
  ring

theorem cells_disjoint {p q : Placement} (h : p.overlaps_with q = false) :
    Disjoint (cells p) (cells q) := by
  rw [Finset.disjoint_left]
  intro a hap haq
  unfold cells at hap haq
  simp only [Finset.mem_product, Finset.mem_Ico] at hap haq
  rw [overlaps_with_eq_false_iff] at h
  omega

theorem cells_subset_bigBox {v : Vehicle} {pl : Placement}
    (h1 : 0 ≤ pl.x) (h2 : 0 ≤ pl.y) (h3 : 0 ≤ pl.z)
    (h4 : pl.x + pl.length ≤ v.length) (h5 : pl.y + pl.width ≤ v.width)
    (h6 : pl.z + pl.height ≤ v.height) :
    cells pl ⊆ bigBox v := by
  intro a ha
  unfold cells at ha
  unfold bigBox
  simp only [Finset.mem_product, Finset.mem_Ico] at ha ⊢
  omega

theorem unionCells_cons (p : Placement) (rest : List Placement) :
    unionCells (p :: rest) = cells p ∪ unionCells rest := rfl

theorem mem_unionCells {ps : List Placement} {a : ℤ × ℤ × ℤ} :
    a ∈ unionCells ps ↔ ∃ pl ∈ ps, a ∈ cells pl := by
  induction ps with
  | nil => simp [unionCells]
  | cons p rest ih =>
      rw [unionCells_cons]
      simp [Finset.mem_union, ih]

theorem card_unionCells {ps : List Placement}
    (hd : ps.Pairwise (fun p q => p.overlaps_with q = false)) :
    (unionCells ps).card = (ps.map (fun pl => (cells pl).card)).sum := by
  induction ps with
  | nil => simp [unionCells]
  | cons p rest ih =>
      have hdp := List.pairwise_cons.mp hd
      have hdisj : Disjoint (cells p) (unionCells rest) := by
        rw [Finset.disjoint_left]
        intro a hap har
        obtain ⟨q, hq, haq⟩ := mem_unionCells.mp har
        exact (Finset.disjoint_left.mp (cells_disjoint (hdp.1 q hq))) hap haq
      rw [unionCells_cons, Finset.card_union_of_disjoint hdisj, List.map_cons,
        List.sum_cons, ih hdp.2]

theorem unionCells_subset {v : Vehicle} {ps : List Placement}
    (h : ∀ pl ∈ ps, cells pl ⊆ bigBox v) : unionCells ps ⊆ bigBox v := by
  intro a ha
  obtain ⟨pl, hpl, hap⟩ := mem_unionCells.mp ha
  exact h pl hpl hap

theorem card_bigBox_int {v : Vehicle} (hl : 0 ≤ v.length) (hw : 0 ≤ v.width)
    (hh : 0 ≤ v.height) :
    (((bigBox v).card : ℤ)) = v.volume := by
  unfold bigBox Vehicle.volume
  rw [Finset.card_product, Finset.card_product, Int.card_Ico, Int.card_Ico, Int.card_Ico]
  push_cast
  rw [Int.toNat_of_nonneg (by omega), Int.toNat_of_nonneg (by omega),
    Int.toNat_of_nonneg (by omega)]
  ring

theorem sumVol_eq_cast_cards {ps : List Placement}
    (h : ∀ pl ∈ ps, 0 < pl.length ∧ 0 < pl.width ∧ 0 < pl.height) :
    sumVol ps = (((ps.map (fun pl => (cells pl).card)).sum : ℕ) : ℤ) := by
  induction ps with
  | nil => simp [sumVol]
  | cons p rest ih =>
      have hp := h p (List.mem_cons_self _ _)
      have hr := ih (fun pl hpl => h pl (List.mem_cons_of_mem _ hpl))
      unfold sumVol at hr ⊢
      rw [List.map_cons, List.sum_cons, List.map_cons, List.sum_cons, Nat.cast_add, ← hr,
        card_cells_int p hp.1 hp.2.1 hp.2.2]

theorem sumVol_nonneg {ps : List Placement}
    (h : ∀ pl ∈ ps, 0 < pl.length ∧ 0 < pl.width ∧ 0 < pl.height) :
    0 ≤ sumVol ps := by
  rw [sumVol_eq_cast_cards h]
  exact Int.natCast_nonneg _

theorem sumVol_le_volume {v : Vehicle} {ps : List Placement}
    (hok : ∀ pl ∈ ps, 0 ≤ pl.x ∧ 0 ≤ pl.y ∧ 0 ≤ pl.z ∧
      (0 < pl.length ∧ 0 < pl.width ∧ 0 < pl.height) ∧
      pl.x + pl.length ≤ v.length ∧ pl.y + pl.width ≤ v.width ∧ pl.z + pl.height ≤ v.height)
    (hd : ps.Pairwise (fun p q => p.overlaps_with q = false))
    (hvl : 0 ≤ v.length) (hvw : 0 ≤ v.width) (hvh : 0 ≤ v.height) :
    sumVol ps ≤ v.volume := by
  rw [sumVol_eq_cast_cards (fun pl hpl => (hok pl hpl).2.2.2.1)]
  rw [← card_unionCells hd]
  rw [← card_bigBox_int hvl hvw hvh]
  have hsub : unionCells ps ⊆ bigBox v := by
    apply unionCells_subset
    intro pl hpl
    obtain ⟨a1, a2, a3, _, b1, b2, b3⟩ := hok pl hpl
    exact cells_subset_bigBox a1 a2 a3 b1 b2 b3
  exact_mod_cast Nat.cast_le.mpr (Finset.card_le_card hsub)

end BinPack

namespace BinPack

theorem mem_get_all_placements {st : SolveState} {p : Placement} :
    p ∈ get_all_placements st ↔ ∃ vp ∈ st.vehicles, p ∈ vp.placements := by
  unfold get_all_placements
  rw [List.mem_flatten]
  constructor
  · rintro ⟨l, hl, hp⟩
    obtain ⟨vp, hvp, hle⟩ := List.mem_map.mp hl
    exact ⟨vp, hvp, by rw [hle]; exact hp⟩
  · rintro ⟨vp, hvp, hp⟩
    exact ⟨vp.placements, List.mem_map.mpr ⟨vp, hvp, rfl⟩, hp⟩

/-- C1: for every pair of distinct placements returned by solve via
get_all_placements that carry the same vehicle index, the occupied boxes
do not overlap, for every well-formed input, local search included. -/
theorem solve_no_overlap_same_vehicle (v : Vehicle) (items : List Item)
    (h : SortingHeuristic) (use : Bool) (hwf : ItemsWF items) (hids : IdsNodup items) :
    ∀ p ∈ get_all_placements (solve v items h use),
      ∀ q ∈ get_all_placements (solve v items h use),
        p.vehicle_id = q.vehicle_id → p ≠ q → p.overlaps_with q = false := by
  intro p hp q hq hvid hne
  have hmaster := solve_goodVehicles v items h use hwf hids
  obtain ⟨vp1, hvp1, hp1⟩ := mem_get_all_placements.mp hp
  obtain ⟨vp2, hvp2, hp2⟩ := mem_get_all_placements.mp hq
  obtain ⟨i, hi⟩ := List.mem_iff_getElem?.mp hvp1
  obtain ⟨j, hj⟩ := List.mem_iff_getElem?.mp hvp2
  have hpid : p.vehicle_id = (i : Int) := by
    rw [(hmaster.1 vp1 hvp1).plvid p hp1]
    exact hmaster.2 i vp1 hi
  have hqid : q.vehicle_id = (j : Int) := by
    rw [(hmaster.1 vp2 hvp2).plvid q hp2]
    exact hmaster.2 j vp2 hj
  have hij : i = j := by
    have : (i : Int) = (j : Int) := by rw [← hpid, ← hqid, hvid]
    exact_mod_cast this
  subst hij
  have hvv : vp1 = vp2 := by
    rw [hi] at hj
    exact Option.some.inj hj
  subst hvv
  exact List.Pairwise.forall (fun a b hab => overlaps_false_symm hab)
    (hmaster.1 vp1 hvp1).disj hp1 hp2 hne

/-- Witness for solve_no_overlap_same_vehicle on a one-parcel instance. -/
theorem solve_no_overlap_same_vehicle_witness :
    ItemsWF [mkItem 0 1 1 1 (-1)] ∧ IdsNodup [mkItem 0 1 1 1 (-1)] ∧
    (∀ p ∈ get_all_placements (solve ⟨1, 1, 1⟩ [mkItem 0 1 1 1 (-1)] .volume true),
      ∀ q ∈ get_all_placements (solve ⟨1, 1, 1⟩ [mkItem 0 1 1 1 (-1)] .volume true),
        p.vehicle_id = q.vehicle_id → p ≠ q → p.overlaps_with q = false) :=
  ⟨by unfold ItemsWF; decide, by unfold IdsNodup; decide,
    solve_no_overlap_same_vehicle ⟨1, 1, 1⟩ [mkItem 0 1 1 1 (-1)] .volume true
      (by unfold ItemsWF; decide) (by unfold IdsNodup; decide)⟩

/-- C3: every placement returned by solve has non-negative coordinates,
its box lies inside the vehicle shape, and its effective-dimension
multiset equals the dimension multiset of its parcel. -/
theorem solve_placements_wellformed (v : Vehicle) (items : List Item)
    (h : SortingHeuristic) (use : Bool) (hwf : ItemsWF items) (hids : IdsNodup items) :
    ∀ pl ∈ get_all_placements (solve v items h use),
      0 ≤ pl.x ∧ 0 ≤ pl.y ∧ 0 ≤ pl.z ∧
      pl.x + pl.length ≤ v.length ∧ pl.y + pl.width ≤ v.width ∧
      pl.z + pl.height ≤ v.height ∧
      ∃ it ∈ items, it.id = pl.item_id ∧
        ({pl.length, pl.width, pl.height} : Multiset ℤ) =
          ({it.length, it.width, it.height} : Multiset ℤ) := by
  intro pl hpl
  have hmaster := solve_goodVehicles v items h use hwf hids
  obtain ⟨vp, hvp, hin⟩ := mem_get_all_placements.mp hpl
  have hok := (hmaster.1 vp hvp).ok pl hin
  obtain ⟨it, hit, hid, hori⟩ := hok.src
  refine ⟨hok.xnn, hok.ynn, hok.znn, hok.xbd, hok.ybd, hok.zbd, it, hit, hid, ?_⟩
  exact allOrientations_multiset ((hwf it hit).2.2.2 _ hori)

/-- Witness for solve_placements_wellformed on a one-parcel instance. -/
theorem solve_placements_wellformed_witness :
    ItemsWF [mkItem 0 1 1 1 (-1)] ∧ IdsNodup [mkItem 0 1 1 1 (-1)] ∧
    (∀ pl ∈ get_all_placements (solve ⟨1, 1, 1⟩ [mkItem 0 1 1 1 (-1)] .volume true),
      0 ≤ pl.x ∧ 0 ≤ pl.y ∧ 0 ≤ pl.z ∧
      pl.x + pl.length ≤ (1 : Int) ∧ pl.y + pl.width ≤ (1 : Int) ∧
      pl.z + pl.height ≤ (1 : Int) ∧
      ∃ it ∈ [mkItem 0 1 1 1 (-1)], it.id = pl.item_id ∧
        ({pl.length, pl.width, pl.height} : Multiset ℤ) =
          ({it.length, it.width, it.height} : Multiset ℤ)) :=
  ⟨by unfold ItemsWF; decide, by unfold IdsNodup; decide,
    solve_placements_wellformed ⟨1, 1, 1⟩ [mkItem 0 1 1 1 (-1)] .volume true
      (by unfold ItemsWF; decide) (by unfold IdsNodup; decide)⟩

/-- C5: with zones enabled, every returned placement whose parcel has a
delivery-zone entry stays inside that zone on the x axis, in the
constructive phase and in the local search alike. -/
theorem solve_respects_delivery_zones (v : Vehicle) (items : List Item)
    (h : SortingHeuristic) (hwf : ItemsWF items) (hids : IdsNodup items) :
    ∀ pl ∈ get_all_placements (solve v items h true),
      ∀ it ∈ items, it.id = pl.item_id →
        ∀ zn, List.lookup it.delivery_time (computeDeliveryZones true v items) = some zn →
          zn.1 ≤ pl.x ∧ pl.x + pl.length ≤ zn.2 := by
  intro pl hpl it hit hid zn hzn
  have hmaster := solve_goodVehicles v items h true hwf hids
  obtain ⟨vp, hvp, hin⟩ := mem_get_all_placements.mp hpl
  have hok := (hmaster.1 vp hvp).ok pl hin
  exact hok.zone it hit hid zn (by simpa [getZoneForItem] using hzn)

/-- Witness for solve_respects_delivery_zones on a one-parcel instance
with a constrained delivery time. -/
theorem solve_respects_delivery_zones_witness :
    ItemsWF [mkItem 0 1 1 1 0] ∧ IdsNodup [mkItem 0 1 1 1 0] ∧
    (∀ pl ∈ get_all_placements (solve ⟨1, 1, 1⟩ [mkItem 0 1 1 1 0] .volume true),
      ∀ it ∈ [mkItem 0 1 1 1 0], it.id = pl.item_id →
        ∀ zn, List.lookup it.delivery_time
            (computeDeliveryZones true ⟨1, 1, 1⟩ [mkItem 0 1 1 1 0]) = some zn →
          zn.1 ≤ pl.x ∧ pl.x + pl.length ≤ zn.2) :=
  ⟨by unfold ItemsWF; decide, by unfold IdsNodup; decide,
    solve_respects_delivery_zones ⟨1, 1, 1⟩ [mkItem 0 1 1 1 0] .volume
      (by unfold ItemsWF; decide) (by unfold IdsNodup; decide)⟩

/-- C6: for every packer in the returned solution the sum of placed box
volumes is at most the vehicle volume, and the utilization ratio lies
between 0 and 1. -/
theorem solve_volume_bound (v : Vehicle) (items : List Item) (h : SortingHeuristic)
    (use : Bool) (hwf : ItemsWF items) (hids : IdsNodup items)
    (hvl : 0 < v.length) (hvw : 0 < v.width) (hvh : 0 < v.height) :
    ∀ vp ∈ (solve v items h use).vehicles,
      sumVol vp.placements ≤ vp.vehicle.volume ∧
      0 ≤ vp.utilization_rate ∧ vp.utilization_rate ≤ 1 := by
  intro vp hvp
  have hmaster := solve_goodVehicles v items h use hwf hids
  have hgp := hmaster.1 vp hvp
  have hbound : sumVol vp.placements ≤ vp.vehicle.volume := by
    rw [hgp.veh]
    apply sumVol_le_volume ?_ hgp.disj (le_of_lt hvl) (le_of_lt hvw) (le_of_lt hvh)
    intro pl hpl
    have hok := hgp.ok pl hpl
    exact ⟨hok.xnn, hok.ynn, hok.znn, ⟨hok.lpos, hok.wpos, hok.hpos⟩,
      hok.xbd, hok.ybd, hok.zbd⟩
  have hvol : (0 : Int) < vp.vehicle.volume := by
    rw [hgp.veh]
    unfold Vehicle.volume
    exact mul_pos (mul_pos hvl hvw) hvh
  have hocc : vp.occupied_volume = sumVol vp.placements := hgp.vol
  have hnn : 0 ≤ vp.occupied_volume := by
    rw [hocc]
    exact sumVol_nonneg (fun pl hpl =>
      ⟨(hgp.ok pl hpl).lpos, (hgp.ok pl hpl).wpos, (hgp.ok pl hpl).hpos⟩)
  have hle : vp.occupied_volume ≤ vp.vehicle.volume := by
    rw [hocc]; exact hbound
  refine ⟨hbound, ?_, ?_⟩
  · unfold VehiclePacker.utilization_rate
    rw [if_pos hvol, Rat.divInt_eq_div]
    apply div_nonneg
    · exact_mod_cast hnn
    · exact_mod_cast le_of_lt hvol
  · unfold VehiclePacker.utilization_rate
    rw [if_pos hvol, Rat.divInt_eq_div]
    rw [div_le_one (by exact_mod_cast hvol)]
    exact_mod_cast hle

/-- Witness for solve_volume_bound on a one-parcel instance. -/
theorem solve_volume_bound_witness :
    ItemsWF [mkItem 0 1 1 1 (-1)] ∧ IdsNodup [mkItem 0 1 1 1 (-1)] ∧
    (0 : Int) < 1 ∧
    (∀ vp ∈ (solve ⟨1, 1, 1⟩ [mkItem 0 1 1 1 (-1)] .volume true).vehicles,
      sumVol vp.placements ≤ vp.vehicle.volume ∧
      0 ≤ vp.utilization_rate ∧ vp.utilization_rate ≤ 1) :=
  ⟨by unfold ItemsWF; decide, by unfold IdsNodup; decide, by decide,
    solve_volume_bound ⟨1, 1, 1⟩ [mkItem 0 1 1 1 (-1)] .volume true
      (by unfold ItemsWF; decide) (by unfold IdsNodup; decide)
      (by decide) (by decide) (by decide)⟩

end BinPack

namespace BinPack

theorem foldl_congr_fun {α β : Type _} {f g : β → α → β} (h : ∀ b a, f b a = g b a) :
    ∀ (l : List α) (b : β), l.foldl f b = l.foldl g b := by
  intro l
  induction l with
  | nil => intro b; rfl
  | cons x xs ih =>
      intro b
      rw [List.foldl_cons, List.foldl_cons, h, ih]

theorem proportionalZones_eq_spec (items : List Item) (L : Int)
    (htot : 0 < totalConstrainedVolume items) :
    proportionalZones items L = specPropFold items L := by
  unfold proportionalZones specPropFold
  have hstep : ∀ (st : Int × List (Int × (Int × Int))) (d : Int),
      (let current_x := st.1
       let zl0 : Int :=
         if 0 < totalConstrainedVolume items then
           max (Rat.floor (Rat.divInt (groupVolume items d * L * 17)
               (totalConstrainedVolume items * 20)))
             (groupMaxDim items d * 3)
         else L.fdiv ((constrainedTimes items).length : Int)
       let zl : Int := min zl0 (L - current_x)
       let x_max : Int := min (current_x + zl) L
       (x_max, st.2 ++ [(d, (current_x, x_max))])) =
      (let len : Int := min
          (max (Rat.floor ((groupVolume items d : ℚ) /
              (totalConstrainedVolume items : ℚ) * (L : ℚ) * (17 / 20)))
            (3 * groupMaxDim items d))
          (L - st.1)
       (st.1 + len, st.2 ++ [(d, (st.1, st.1 + len))])) := by
    intro st d
    have hne : ((totalConstrainedVolume items : ℚ)) ≠ 0 := by
      exact_mod_cast ne_of_gt htot
    have hfloor : Rat.floor (Rat.divInt (groupVolume items d * L * 17)
        (totalConstrainedVolume items * 20)) =
        Rat.floor ((groupVolume items d : ℚ) /
          (totalConstrainedVolume items : ℚ) * (L : ℚ) * (17 / 20)) := by
      congr 1
      rw [Rat.divInt_eq_div]
      push_cast
      field_simp
      try ring
    simp only [if_pos htot, hfloor]
    have hmaxeq : max (Rat.floor ((groupVolume items d : ℚ) /
          (totalConstrainedVolume items : ℚ) * (L : ℚ) * (17 / 20)))
          (groupMaxDim items d * 3) =
        max (Rat.floor ((groupVolume items d : ℚ) /
          (totalConstrainedVolume items : ℚ) * (L : ℚ) * (17 / 20)))
          (3 * groupMaxDim items d) := by
      rw [mul_comm (groupMaxDim items d) 3]
    rw [hmaxeq]
    have hxmax : min (st.1 + min (max (Rat.floor ((groupVolume items d : ℚ) /
          (totalConstrainedVolume items : ℚ) * (L : ℚ) * (17 / 20)))
          (3 * groupMaxDim items d)) (L - st.1)) L =
        st.1 + min (max (Rat.floor ((groupVolume items d : ℚ) /
          (totalConstrainedVolume items : ℚ) * (L : ℚ) * (17 / 20)))
          (3 * groupMaxDim items d)) (L - st.1) := by
      omega
    rw [hxmax]
  exact congrArg Prod.snd (foldl_congr_fun hstep (constrainedTimes items).reverse (0, []))

theorem computeDeliveryZones_true_eq (v : Vehicle) (items : List Item) :
    computeDeliveryZones true v items =
      (if (constrainedTimes items).isEmpty then []
       else if (items.any fun it => it.delivery_time == -1)
       then (if (decide (20 < ((constrainedTimes items).length : Int)) ||
              (decide (10 < ((constrainedTimes items).length : Int)) &&
               decide (Rat.divInt (nbConstrainedItems items)
                 ((constrainedTimes items).length : Int) < 3)))
             then cumulativeZones v.length (constrainedTimes items)
             else proportionalZones items v.length) ++ [(-1, (0, v.length))]
       else (if (decide (20 < ((constrainedTimes items).length : Int)) ||
              (decide (10 < ((constrainedTimes items).length : Int)) &&
               decide (Rat.divInt (nbConstrainedItems items)
                 ((constrainedTimes items).length : Int) < 3)))
             then cumulativeZones v.length (constrainedTimes items)
             else proportionalZones items v.length)) := rfl

/-- C8: when the proportional strategy is selected (at least one
constrained group and neither more than 20 groups nor more than 10
groups of average size below 3), the delivery-zone map is exactly the
reverse-traversal cursor fold described by the specification, possibly
followed by the full-length entry for the unconstrained time -1. -/
theorem proportional_zones_match_spec (v : Vehicle) (items : List Item)
    (hk : constrainedTimes items ≠ [])
    (hcond : ¬(20 < ((constrainedTimes items).length : Int) ∨
      (10 < ((constrainedTimes items).length : Int) ∧
        Rat.divInt (nbConstrainedItems items) ((constrainedTimes items).length : Int) < 3)))
    (htot : 0 < totalConstrainedVolume items) :
    computeDeliveryZones true v items =
      specPropFold items v.length ++
        (if items.any (fun it => it.delivery_time == -1) then [(-1, (0, v.length))]
         else []) := by
  rw [computeDeliveryZones_true_eq]
  have hempty : ¬((constrainedTimes items).isEmpty = true) := by
    simpa [List.isEmpty_iff] using hk
  rw [if_neg hempty]
  have hcondb : ¬((decide (20 < ((constrainedTimes items).length : Int)) ||
      (decide (10 < ((constrainedTimes items).length : Int)) &&
       decide (Rat.divInt (nbConstrainedItems items)
         ((constrainedTimes items).length : Int) < 3))) = true) := by
    simpa using hcond
  by_cases hany : ((items.any fun it => it.delivery_time == -1) = true)
  · rw [if_pos hany, if_neg hcondb, if_pos hany,
      proportionalZones_eq_spec items v.length htot]
  · rw [if_neg hany, if_neg hcondb, if_neg hany,
      proportionalZones_eq_spec items v.length htot, List.append_nil]

/-- Witness for proportional_zones_match_spec: the two-group instance of
scenario 5, where the proportional strategy applies. -/
theorem proportional_zones_match_spec_witness :
    constrainedTimes c4items ≠ [] ∧
    ¬(20 < ((constrainedTimes c4items).length : Int) ∨
      (10 < ((constrainedTimes c4items).length : Int) ∧
        Rat.divInt (nbConstrainedItems c4items) ((constrainedTimes c4items).length : Int) < 3)) ∧
    0 < totalConstrainedVolume c4items ∧
    computeDeliveryZones true ⟨30, 10, 10⟩ c4items =
      specPropFold c4items (30 : Int) ++
        (if c4items.any (fun it => it.delivery_time == -1) then [(-1, (0, (30 : Int)))]
         else []) :=
  ⟨by decide, by decide, by decide,
    proportional_zones_match_spec ⟨30, 10, 10⟩ c4items (by decide) (by decide) (by decide)⟩

end BinPack

namespace BinPack

/-- C2: evaluation of the solver at a failing input (vehicle 10 x 10 x 1,
flat square parcels 4, 4, 4, 4, 6, 4, 4, 2, heuristic height, zones
enabled but inert since every delivery time is -1).  The constructive
phase places all eight parcels into two packers, and the vehicle count
never grows during local search; but the local-search commit loop, whose
per-parcel scores were all computed against the state at entry, commits
parcel 0 into the single 4 x 4 hole of the surviving packer, silently
fails to place parcels 1, 2 and 3, deletes their packer anyway, and
reports success: the final solution contains placements for parcels
4, 5, 6, 7, 0 only, while the unplaced list stays empty. -/
theorem local_search_loses_parcels_eval :
    (((sort_items .height c2items).foldl
        (constructStep ⟨10, 10, 1⟩ true (computeDeliveryZones true ⟨10, 10, 1⟩ c2items))
        ⟨[], []⟩).vehicles.map (fun vp => vp.placements.map (fun pl => pl.item_id)))
      = [[0, 1, 2, 3], [4, 5, 6, 7]] ∧
    ((get_all_placements (solve ⟨10, 10, 1⟩ c2items .height true)).map
        (fun pl => pl.item_id)) = [4, 5, 6, 7, 0] ∧
    (solve ⟨10, 10, 1⟩ c2items .height true).unplaced_items = [] ∧
    (solve ⟨10, 10, 1⟩ c2items .height true).vehicles.length = 1 := by
  refine ⟨?_, ?_, ?_, ?_⟩ <;> rfl

/-- C4 counterexample: on vehicle 30 x 10 x 10 with two 10-cubes of
delivery times 0 and 1 and zones enabled, the claimed scenario (both
parcels placed, and the delivery-time-0 parcel at an x origin at least
that of the other) is false on the code: parcel 0 receives no placement
at all. -/
theorem delivery_order_scenario_refuted :
    ¬ ((∃ p ∈ get_all_placements (solve ⟨30, 10, 10⟩ c4items .volume true), p.item_id = 0) ∧
       (∃ q ∈ get_all_placements (solve ⟨30, 10, 10⟩ c4items .volume true), q.item_id = 1) ∧
       (∀ p ∈ get_all_placements (solve ⟨30, 10, 10⟩ c4items .volume true),
        ∀ q ∈ get_all_placements (solve ⟨30, 10, 10⟩ c4items .volume true),
          p.item_id = 0 → q.item_id = 1 → q.x ≤ p.x)) := by
  decide

/-- C4 amended: on that input the proportional zone computation assigns
delivery time 0 the empty interval [30, 30), so parcel 0 is unplaced and
solve fails, and only parcel 1 is placed, at x = 0. -/
theorem delivery_order_scenario_actual :
    List.lookup 0 (computeDeliveryZones true ⟨30, 10, 10⟩ c4items) = some (30, 30) ∧
    ((solve ⟨30, 10, 10⟩ c4items .volume true).unplaced_items.map (fun it => it.id)) = [0] ∧
    ((get_all_placements (solve ⟨30, 10, 10⟩ c4items .volume true)).map
      (fun pl => (pl.item_id, pl.x))) = [(1, 0)] := by
  refine ⟨?_, ?_, ?_⟩ <;> rfl

end BinPack
